import Mathlib

/-!
# Shallow embedding of `pred_app/model.py`

This file embeds the cross-validated training loop (`build_model`), the
metric aggregation (`build_metric_table`) and the feature scoring
(`feature_scoring`) of the repository's single source file, together with
the sklearn metric functions they call, and proves the testable
properties stated in the specification.

Modelling conventions:

* The random 85/15 `train_test_split` and the xgboost training/prediction
  are external, non-deterministic library calls; one loop iteration's
  split together with the trained model's probability outputs on the test
  rows is abstracted as a `Fold` record, and `build_model` consumes the
  list of per-iteration `Fold`s (its length is the `cv_count`).
* Machine floats are modelled by exact arithmetic: `ℚ` for the ratio
  metrics and `ℝ` where a logarithm or square root occurs.
* Python exceptions (pandas `KeyError` on a missing crosstab row/column,
  sklearn `ValueError` on a single-class target) are modelled by
  `Option`: the guard `foldOK` states exactly the conditions under which
  every metric step of one loop iteration succeeds.
-/

namespace PredApp

/-- Python's `round` to an integer: round-half-to-even (banker's rounding). -/
def pyRound {α : Type} [LinearOrderedField α] [FloorRing α] (x : α) : ℤ :=
  if Int.fract x < 1 / 2 then ⌊x⌋
  else if 1 / 2 < Int.fract x then ⌊x⌋ + 1
  else if 2 ∣ ⌊x⌋ then ⌊x⌋ else ⌊x⌋ + 1

/-- Python's `round(x, d)`: round to `d` decimal places, half to even.
(The binary-float argument is modelled by an exact number, so the decimal
rounding is exact.) -/
def roundTo {α : Type} [LinearOrderedField α] [FloorRing α] (d : ℕ) (x : α) : α :=
  (pyRound (x * 10 ^ d) : α) / 10 ^ d

/-- Number of test rows whose actual label is `a` and predicted label is `p`:
one cell of `pd.crosstab(actual, prediction)`.  The pairing of the
`actual` and `prediction` columns is positional. -/
def matchCount (y yhat : List ℕ) (a p : ℕ) : ℕ :=
  (y.zip yhat).countP (fun q => q.1 == a && q.2 == p)

/-- The lookup `crosstab[p][a]` on `pd.crosstab(index=actual, columns=prediction)`:
`crosstab[p]` selects the column labelled `p` (raising `KeyError` when the
value `p` never occurs among the predictions), and `[a]` then selects the
row labelled `a` (raising `KeyError` when `a` never occurs among the
actual labels).  `none` models the uncaught `KeyError`. -/
def crosstab (y yhat : List ℕ) (a p : ℕ) : Option ℕ :=
  if y.contains a && yhat.contains p then some (matchCount y yhat a p) else none

/-- `np.argmax` on one two-class probability row: index `1` exactly when the
second entry is strictly larger (ties give the first index, `0`). -/
def argmax2 (p : ℚ × ℚ) : ℕ :=
  if p.1 < p.2 then 1 else 0

/-- The `outcomes` list of `build_model`: argmax class of each predicted
probability row. -/
def outcomes (preds : List (ℚ × ℚ)) : List ℕ :=
  preds.map argmax2

/-- `sklearn.metrics.precision_score(y, yhat)` in the binary setting
(`pos_label=1`, `zero_division` returning `0`): true positives over
predicted positives. -/
def precision_score (y yhat : List ℕ) : ℚ :=
  let tp := matchCount y yhat 1 1
  let fp := matchCount y yhat 0 1
  if tp + fp = 0 then 0 else (tp : ℚ) / ((tp : ℚ) + (fp : ℚ))

/-- `sklearn.metrics.recall_score(y, yhat)` in the binary setting:
true positives over actual positives. -/
def recall_score (y yhat : List ℕ) : ℚ :=
  let tp := matchCount y yhat 1 1
  let fn := matchCount y yhat 1 0
  if tp + fn = 0 then 0 else (tp : ℚ) / ((tp : ℚ) + (fn : ℚ))

/-- `sklearn.metrics.accuracy_score(y, yhat)`: fraction of positionally
matching labels. -/
def accuracy_score (y yhat : List ℕ) : ℚ :=
  ((y.zip yhat).countP (fun q => q.1 == q.2) : ℚ) / (y.length : ℚ)

/-- `sklearn.metrics.roc_auc_score(y, s)` for a binary target and a score
vector: the Mann-Whitney statistic, i.e. the fraction of
(positive, negative) index pairs on which the positive sample's score is
the larger, ties counting one half. -/
def roc_auc_score (y s : List ℕ) : ℚ :=
  let pos := ((y.zip s).filter (fun q => q.1 == 1)).map Prod.snd
  let neg := ((y.zip s).filter (fun q => q.1 != 1)).map Prod.snd
  (pos.map (fun p => (neg.map (fun n =>
      if n < p then (1 : ℚ) else if n == p then 1 / 2 else 0)).sum)).sum
    / ((pos.length : ℚ) * (neg.length : ℚ))

/-- sklearn's probability clipping bound `eps = 1e-15` used by `log_loss`. -/
def EPS : ℚ := 1 / 10 ^ 15

/-- Clip a probability into `[eps, 1 - eps]` as `log_loss` does. -/
def clip01 (v : ℚ) : ℚ :=
  max EPS (min (1 - EPS) v)

/-- `sklearn.metrics.log_loss(y, p)` with a 1-d second argument: `p i` is
read as the probability of the positive class, clipped away from `0` and
`1`, and the result is the mean negative log-likelihood of the true
labels under those clipped probabilities. -/
noncomputable def log_loss (y : List ℕ) (p : List ℚ) : ℝ :=
  -(((y.zip p).map (fun q =>
      if q.1 == 1 then Real.log ((clip01 q.2 : ℚ) : ℝ)
      else Real.log ((1 - clip01 q.2 : ℚ) : ℝ))).sum) / (y.length : ℝ)

/-- One iteration of `build_model`'s loop, abstracting the random
`train_test_split` (85/15) and the trained booster's probability output
`preds` on the held-out rows: `x_train`/`x_test` are the feature
partitions, `y_train`/`y_test` the label partitions. -/
structure Fold where
  xTrain : List (List ℚ)
  xTest : List (List ℚ)
  yTrain : List ℕ
  yTest : List ℕ
  preds : List (ℚ × ℚ)

/-- The conditions under which every metric statement of one loop iteration
succeeds: one probability row per test row, a binary test target
(sklearn's binary metrics reject anything else), both classes present
among the actual labels (`log_loss` and `roc_auc_score` raise on a
single-class target, and the crosstab needs both rows) and both classes
present among the predictions (the crosstab needs both columns). -/
def foldOK (f : Fold) : Bool :=
  f.preds.length == f.yTest.length &&
  f.yTest.all (fun v => v == 0 || v == 1) &&
  f.yTest.contains 0 && f.yTest.contains 1 &&
  (outcomes f.preds).contains 0 && (outcomes f.preds).contains 1

/-- The eight entries appended to one fold's `arr`, as named fields:
`[precision, recall, accuracy, logloss, roc, correct, incorrect, game_count]`. -/
structure FoldMetrics where
  precision : ℚ
  «recall» : ℚ
  accuracy : ℚ
  logloss : ℝ
  roc : ℚ
  correct : ℕ
  incorrect : ℕ
  game_count : ℕ

/-- The `arr` list of one fold, in the order the code appends it. -/
def FoldMetrics.fields (m : FoldMetrics) : List ℝ :=
  [(m.precision : ℝ), (m.«recall» : ℝ), (m.accuracy : ℝ), m.logloss,
   (m.roc : ℝ), (m.correct : ℝ), (m.incorrect : ℝ), (m.game_count : ℝ)]

/-- The metric row of one loop iteration, exactly as the code computes it:
the ratio scores rounded to four decimals and scaled by 100, the log-loss
of `y_test` against the *hard labels* `outcomes` rounded to four decimals,
and the confusion counts read out of the crosstab
(`correct = crosstab[0][0] + crosstab[1][1]`,
`incorrect = crosstab[0][1] + crosstab[1][0]`; the `getD 0` is only
evaluated under the `foldOK` guard, where every lookup is `some`). -/
noncomputable def foldRow (f : Fold) : FoldMetrics :=
  let y := f.yTest
  let yhat := outcomes f.preds
  { precision := roundTo 4 (precision_score y yhat) * 100
    «recall» := roundTo 4 (recall_score y yhat) * 100
    accuracy := roundTo 4 (accuracy_score y yhat) * 100
    logloss := roundTo 4 (log_loss y (yhat.map (fun v => (v : ℚ))))
    roc := roundTo 4 (roc_auc_score y yhat) * 100
    correct := (crosstab y yhat 0 0).getD 0 + (crosstab y yhat 1 1).getD 0
    incorrect := (crosstab y yhat 1 0).getD 0 + (crosstab y yhat 0 1).getD 0
    game_count := yhat.length }

/-- One loop iteration as a fallible computation: `none` models an uncaught
library exception (single-class target or missing crosstab row/column). -/
noncomputable def foldMetrics (f : Fold) : Option FoldMetrics :=
  if foldOK f then some (foldRow f) else none

/-- `build_model`: run the loop over the given folds, collect each
iteration's metric row into `metrics_list`, and return it together with
the *loop variables as left by the last iteration*:
`x_train`, `y_train`, `y_test` and `outcomes`.  `none` models an uncaught
exception in some iteration, and also the `NameError` on `cv_count = 0`
(the loop never binds `x_train`). -/
noncomputable def build_model (folds : List Fold) :
    Option (List FoldMetrics × List (List ℚ) × List ℕ × List ℕ × List ℕ) :=
  match folds.getLast? with
  | none => none
  | some last =>
      if folds.all foldOK then
        some (folds.map foldRow, last.xTrain, last.yTrain, last.yTest,
              outcomes last.preds)
      else none

/-- `np.mean` of a column. -/
noncomputable def meanR (xs : List ℝ) : ℝ :=
  xs.sum / (xs.length : ℝ)

/-- `np.min` of a (nonempty) column. -/
noncomputable def listMin : List ℝ → ℝ
  | [] => 0
  | x :: xs => xs.foldl min x

/-- `np.max` of a (nonempty) column. -/
noncomputable def listMax : List ℝ → ℝ
  | [] => 0
  | x :: xs => xs.foldl max x

/-- `np.std` of a column: square root of the mean squared deviation. -/
noncomputable def stdR (xs : List ℝ) : ℝ :=
  Real.sqrt (((xs.map (fun v => (v - meanR xs) ^ 2)).sum) / (xs.length : ℝ))

/-- One row of the summary table written to `metric_scores`:
the metric's name and its mean/min/max/std across folds. -/
structure SummaryRow where
  metric : String
  mean : ℝ
  min : ℝ
  max : ℝ
  std : ℝ

/-- The eight metric columns of the intermediate table, paired with the
name each gets in the final `Metric` column (the code renames the
intermediate column `ROC` to `ROC-AUC` there). -/
noncomputable def metricCols : List (String × (FoldMetrics → ℝ)) :=
  [("Precision", fun m => (m.precision : ℝ)),
   ("Recall", fun m => (m.«recall» : ℝ)),
   ("Accuracy", fun m => (m.accuracy : ℝ)),
   ("Logloss", fun m => m.logloss),
   ("ROC-AUC", fun m => (m.roc : ℝ)),
   ("Correct", fun m => (m.correct : ℝ)),
   ("Incorrect", fun m => (m.incorrect : ℝ)),
   ("Games Tested", fun m => (m.game_count : ℝ))]

/-- `build_metric_table`: for every metric column of the per-fold table,
aggregate mean/min/max/std across the folds, and return the summary table
in the order `[Metric, Mean, Min, Max, Std]`.  (The `print` calls and the
full-table-replace `to_sql` persistence are side effects on the same
value and are not modelled.) -/
noncomputable def build_metric_table (ms : List FoldMetrics) : List SummaryRow :=
  metricCols.map (fun c =>
    let xs := ms.map c.2
    { metric := c.1, mean := meanR xs, min := listMin xs, max := listMax xs,
      std := stdR xs })

/-- The table built and persisted by `feature_scoring`: an ordered list of
column labels and the rows beneath them (first component under the first
label, second component under the second label). -/
structure ScoresTable where
  colLabels : List String
  rows : List (ℚ × String)

/-- `feature_scoring`: the univariate F-statistics `fit.scores_` computed by
`SelectKBest(f_classif)` are an opaque library output, passed in here as
`scores` (one per feature column).  The code concatenates the score column
and the name column side by side, labels them `["Specs", "Score"]` — so
the label `Specs` sits over the numeric scores and the label `Score` over
the feature names — and sorts the rows by the `Specs` column descending. -/
def feature_scoring (cols : List String) (scores : List ℚ) : ScoresTable :=
  { colLabels := ["Specs", "Score"]
    rows := (scores.zip cols).mergeSort (fun a b => decide (b.1 ≤ a.1)) }

/-- Spec-side definition, from the specification's glossary wording only:
"Log-loss: the negative log-likelihood of the true labels under the
predicted class probabilities" — the mean negative log of the probability
the classifier's output row assigns to each true label.  Stated for
comparison with what the code records. -/
noncomputable def nll_of_probs (y : List ℕ) (preds : List (ℚ × ℚ)) : ℝ :=
  -(((y.zip preds).map (fun q =>
      if q.1 == 1 then Real.log ((q.2.2 : ℚ) : ℝ)
      else Real.log ((q.2.1 : ℚ) : ℝ))).sum) / (y.length : ℝ)

/-- A concrete fold for instantiating the theorems: two held-out rows with
labels `[0, 1]`, on which the booster outputs full certainty for the
correct class. -/
def demoFold : Fold :=
  ⟨[[7]], [[5]], [0], [0, 1], [(1, 0), (0, 1)]⟩

/-- A fold whose probability rows `(3/5, 2/5)` and `(3/10, 7/10)` have the
same argmax classes as `demoFold`'s but are not degenerate, exhibiting the
gap between the recorded log-loss and the log-likelihood under the
probabilities. -/
def softFold : Fold :=
  ⟨[], [], [], [0, 1], [(3 / 5, 2 / 5), (3 / 10, 7 / 10)]⟩

/-- A concrete metrics row for instantiating the aggregation theorems. -/
noncomputable def demoRow : FoldMetrics :=
  ⟨55, 60, 65, 1, 70, 13, 7, 20⟩

/-! ## Helper lemmas -/

theorem pyRound_nonneg {α : Type} [LinearOrderedField α] [FloorRing α] {x : α}
    (hx : 0 ≤ x) : 0 ≤ pyRound x := by
  have h0 : (0 : ℤ) ≤ ⌊x⌋ := Int.le_floor.mpr (by exact_mod_cast hx)
  unfold pyRound
  split_ifs <;> omega

theorem pyRound_le {α : Type} [LinearOrderedField α] [FloorRing α] {x : α} {n : ℤ}
    (hx : x ≤ n) : pyRound x ≤ n := by
  have h0 : ⌊x⌋ ≤ n := by
    have := Int.floor_le_floor hx
    rwa [Int.floor_intCast] at this
  have hstrict : 1 / 2 ≤ Int.fract x → ⌊x⌋ + 1 ≤ n := by
    intro hf
    have hpos : (0 : α) < Int.fract x := lt_of_lt_of_le (by norm_num) hf
    have hlt : (⌊x⌋ : α) < x := by
      have : (⌊x⌋ : α) + Int.fract x = x := Int.floor_add_fract x
      linarith
    have : (⌊x⌋ : α) < (n : α) := lt_of_lt_of_le hlt hx
    have : ⌊x⌋ < n := by exact_mod_cast this
    omega
  unfold pyRound
  split_ifs with h1 h2 h3
  · exact h0
  · exact hstrict (le_of_lt h2)
  · exact h0
  · exact hstrict (le_of_not_lt h1)

theorem roundTo_nonneg {α : Type} [LinearOrderedField α] [FloorRing α] {d : ℕ} {x : α}
    (hx : 0 ≤ x) : 0 ≤ roundTo d x := by
  unfold roundTo
  have h1 : (0 : ℤ) ≤ pyRound (x * 10 ^ d) :=
    pyRound_nonneg (by positivity)
  have h2 : (0 : α) ≤ (pyRound (x * 10 ^ d) : α) := by exact_mod_cast h1
  positivity

theorem roundTo_le_one {α : Type} [LinearOrderedField α] [FloorRing α] {d : ℕ} {x : α}
    (hx : x ≤ 1) : roundTo d x ≤ 1 := by
  unfold roundTo
  have hpow : (0 : α) < 10 ^ d := by positivity
  have h1 : pyRound (x * 10 ^ d) ≤ (10 ^ d : ℤ) := by
    apply pyRound_le
    push_cast
    calc x * 10 ^ d ≤ 1 * 10 ^ d := by nlinarith
    _ = 10 ^ d := one_mul _
  have h2 : (pyRound (x * 10 ^ d) : α) ≤ (10 ^ d : α) := by exact_mod_cast h1
  rw [div_le_one hpow]
  exact h2

theorem scaled_nonneg {s : ℚ} (hs : 0 ≤ s) : 0 ≤ roundTo 4 s * 100 := by
  have := roundTo_nonneg (d := 4) hs
  linarith

theorem scaled_le_100 {s : ℚ} (hs : s ≤ 1) : roundTo 4 s * 100 ≤ 100 := by
  have := roundTo_le_one (d := 4) hs
  linarith

theorem list_sum_nonpos {l : List ℝ} (h : ∀ x ∈ l, x ≤ 0) : l.sum ≤ 0 := by
  induction l with
  | nil => simp
  | cons x t ih =>
      rw [List.sum_cons]
      have hx := h x (List.mem_cons_self x t)
      have ht := ih (fun z hz => h z (List.mem_cons_of_mem x hz))
      linarith

theorem precision_score_bounds (y yhat : List ℕ) :
    0 ≤ precision_score y yhat ∧ precision_score y yhat ≤ 1 := by
  unfold precision_score
  dsimp only
  split_ifs with h
  · norm_num
  · constructor
    · positivity
    · apply div_le_one_of_le₀
      · linarith
      · positivity

theorem recall_score_bounds (y yhat : List ℕ) :
    0 ≤ recall_score y yhat ∧ recall_score y yhat ≤ 1 := by
  unfold recall_score
  dsimp only
  split_ifs with h
  · norm_num
  · constructor
    · positivity
    · apply div_le_one_of_le₀
      · linarith
      · positivity

theorem accuracy_score_bounds (y yhat : List ℕ) :
    0 ≤ accuracy_score y yhat ∧ accuracy_score y yhat ≤ 1 := by
  unfold accuracy_score
  constructor
  · positivity
  · rcases Nat.eq_zero_or_pos y.length with h0 | h0
    · simp [h0]
    · apply div_le_one_of_le₀
      · have hc : (y.zip yhat).countP (fun q => q.1 == q.2) ≤ y.length := by
          calc (y.zip yhat).countP (fun q => q.1 == q.2) ≤ (y.zip yhat).length :=
              List.countP_le_length _
          _ ≤ y.length := by rw [List.length_zip]; exact min_le_left _ _
        exact_mod_cast hc
      · positivity

theorem roc_auc_score_bounds (y s : List ℕ) :
    0 ≤ roc_auc_score y s ∧ roc_auc_score y s ≤ 1 := by
  unfold roc_auc_score
  dsimp only
  set pos := ((y.zip s).filter (fun q => q.1 == 1)).map Prod.snd with hpos
  set neg := ((y.zip s).filter (fun q => q.1 != 1)).map Prod.snd with hneg
  have hinner : ∀ p : ℕ, 0 ≤ (neg.map (fun n =>
      if n < p then (1 : ℚ) else if n == p then 1 / 2 else 0)).sum ∧
      (neg.map (fun n =>
      if n < p then (1 : ℚ) else if n == p then 1 / 2 else 0)).sum ≤ neg.length := by
    intro p
    constructor
    · apply List.sum_nonneg
      intro x hx
      obtain ⟨n, _, rfl⟩ := List.mem_map.mp hx
      split_ifs <;> norm_num
    · calc (neg.map (fun n =>
          if n < p then (1 : ℚ) else if n == p then 1 / 2 else 0)).sum ≤
          (neg.map (fun n =>
          if n < p then (1 : ℚ) else if n == p then 1 / 2 else 0)).length • (1 : ℚ) := by
            apply List.sum_le_card_nsmul
            intro x hx
            obtain ⟨n, _, rfl⟩ := List.mem_map.mp hx
            split_ifs <;> norm_num
      _ = neg.length := by rw [List.length_map]; simp
  have houter : 0 ≤ (pos.map (fun p => (neg.map (fun n =>
      if n < p then (1 : ℚ) else if n == p then 1 / 2 else 0)).sum)).sum ∧
      (pos.map (fun p => (neg.map (fun n =>
      if n < p then (1 : ℚ) else if n == p then 1 / 2 else 0)).sum)).sum ≤
      (pos.length : ℚ) * (neg.length : ℚ) := by
    constructor
    · apply List.sum_nonneg
      intro x hx
      obtain ⟨p, _, rfl⟩ := List.mem_map.mp hx
      exact (hinner p).1
    · calc (pos.map (fun p => (neg.map (fun n =>
          if n < p then (1 : ℚ) else if n == p then 1 / 2 else 0)).sum)).sum ≤
          (pos.map (fun p => (neg.map (fun n =>
          if n < p then (1 : ℚ) else if n == p then 1 / 2 else 0)).sum)).length •
            ((neg.length : ℚ)) := by
            apply List.sum_le_card_nsmul
            intro x hx
            obtain ⟨p, _, rfl⟩ := List.mem_map.mp hx
            exact (hinner p).2
      _ = (pos.length : ℚ) * (neg.length : ℚ) := by
            rw [List.length_map, nsmul_eq_mul]
  rcases eq_or_ne ((pos.length : ℚ) * (neg.length : ℚ)) 0 with hzero | hzero
  · rw [hzero, div_zero]; norm_num
  · have hpos0 : (0 : ℚ) < (pos.length : ℚ) * (neg.length : ℚ) := by
      rcases lt_or_eq_of_le (by positivity : (0:ℚ) ≤ (pos.length : ℚ) * (neg.length : ℚ)) with h | h
      · exact h
      · exact absurd h.symm hzero
    constructor
    · exact div_nonneg houter.1 (le_of_lt hpos0)
    · rw [div_le_one hpos0]
      exact houter.2

theorem clip01_bounds (v : ℚ) : 0 < clip01 v ∧ clip01 v < 1 := by
  unfold clip01 EPS
  constructor
  · apply lt_max_of_lt_left; norm_num
  · apply max_lt
    · norm_num
    · apply lt_of_le_of_lt (min_le_left _ _); norm_num

theorem log_loss_nonneg (y : List ℕ) (p : List ℚ) : 0 ≤ log_loss y p := by
  unfold log_loss
  apply div_nonneg _ (by positivity)
  rw [neg_nonneg]
  apply list_sum_nonpos
  intro x hx
  obtain ⟨q, _, rfl⟩ := List.mem_map.mp hx
  split_ifs
  · apply Real.log_nonpos
    · exact_mod_cast le_of_lt (clip01_bounds q.2).1
    · exact_mod_cast le_of_lt (clip01_bounds q.2).2
  · apply Real.log_nonpos
    · have h : (0 : ℚ) ≤ 1 - clip01 q.2 := by
        have := (clip01_bounds q.2).2; linarith
      exact_mod_cast h
    · have h : (1 - clip01 q.2 : ℚ) ≤ 1 := by
        have := (clip01_bounds q.2).1; linarith
      exact_mod_cast h

theorem foldl_min_le_init (l : List ℝ) (a : ℝ) : l.foldl min a ≤ a := by
  induction l generalizing a with
  | nil => simp
  | cons x t ih =>
      calc (x :: t).foldl min a = t.foldl min (min a x) := rfl
      _ ≤ min a x := ih _
      _ ≤ a := min_le_left _ _

theorem foldl_min_le_mem (l : List ℝ) (a x : ℝ) (hx : x ∈ l) :
    l.foldl min a ≤ x := by
  induction l generalizing a with
  | nil => cases hx
  | cons z t ih =>
      rcases List.mem_cons.mp hx with h | h
      · subst h
        calc (x :: t).foldl min a = t.foldl min (min a x) := rfl
        _ ≤ min a x := foldl_min_le_init t _
        _ ≤ x := min_le_right _ _
      · exact ih (min a z) h

theorem init_le_foldl_max (l : List ℝ) (a : ℝ) : a ≤ l.foldl max a := by
  induction l generalizing a with
  | nil => simp
  | cons x t ih =>
      calc a ≤ max a x := le_max_left _ _
      _ ≤ t.foldl max (max a x) := ih _
      _ = (x :: t).foldl max a := rfl

theorem mem_le_foldl_max (l : List ℝ) (a x : ℝ) (hx : x ∈ l) :
    x ≤ l.foldl max a := by
  induction l generalizing a with
  | nil => cases hx
  | cons z t ih =>
      rcases List.mem_cons.mp hx with h | h
      · subst h
        calc x ≤ max a x := le_max_right _ _
        _ ≤ t.foldl max (max a x) := init_le_foldl_max t _
        _ = (x :: t).foldl max a := rfl
      · exact ih (max a z) h

theorem listMin_le_mem (xs : List ℝ) (x : ℝ) (hx : x ∈ xs) : listMin xs ≤ x := by
  cases xs with
  | nil => cases hx
  | cons z t =>
      rcases List.mem_cons.mp hx with h | h
      · subst h
        exact foldl_min_le_init t x
      · exact foldl_min_le_mem t z x h

theorem mem_le_listMax (xs : List ℝ) (x : ℝ) (hx : x ∈ xs) : x ≤ listMax xs := by
  cases xs with
  | nil => cases hx
  | cons z t =>
      rcases List.mem_cons.mp hx with h | h
      · subst h
        exact init_le_foldl_max t x
      · exact mem_le_foldl_max t z x h

theorem listMin_le_meanR (xs : List ℝ) (h : xs ≠ []) : listMin xs ≤ meanR xs := by
  have hlen : (0 : ℝ) < (xs.length : ℝ) := by
    have := List.length_pos.mpr h
    exact_mod_cast this
  have hsum : (xs.length : ℝ) * listMin xs ≤ xs.sum := by
    have h1 : xs.length • listMin xs ≤ xs.sum :=
      List.card_nsmul_le_sum xs (listMin xs) (fun x hx => listMin_le_mem xs x hx)
    rwa [nsmul_eq_mul] at h1
  rw [meanR, le_div_iff₀ hlen]
  linarith [hsum]

theorem meanR_le_listMax (xs : List ℝ) (h : xs ≠ []) : meanR xs ≤ listMax xs := by
  have hlen : (0 : ℝ) < (xs.length : ℝ) := by
    have := List.length_pos.mpr h
    exact_mod_cast this
  have hsum : xs.sum ≤ (xs.length : ℝ) * listMax xs := by
    have h1 : xs.sum ≤ xs.length • listMax xs :=
      List.sum_le_card_nsmul xs (listMax xs) (fun x hx => mem_le_listMax xs x hx)
    rwa [nsmul_eq_mul] at h1
  rw [meanR, div_le_iff₀ hlen]
  linarith [hsum]

theorem countP_partition (l : List (ℕ × ℕ))
    (h : ∀ q ∈ l, (q.1 = 0 ∨ q.1 = 1) ∧ (q.2 = 0 ∨ q.2 = 1)) :
    l.countP (fun q => q.1 == 0 && q.2 == 0) +
    l.countP (fun q => q.1 == 1 && q.2 == 1) +
    l.countP (fun q => q.1 == 1 && q.2 == 0) +
    l.countP (fun q => q.1 == 0 && q.2 == 1) = l.length := by
  induction l with
  | nil => simp
  | cons a t ih =>
      have ha := h a (List.mem_cons_self a t)
      have ht := ih (fun q hq => h q (List.mem_cons_of_mem a hq))
      simp only [List.countP_cons, List.length_cons]
      rcases ha.1 with h1 | h1 <;> rcases ha.2 with h2 | h2 <;>
        simp [h1, h2] <;> omega

theorem crosstab_isSome_iff (y yhat : List ℕ) (a p : ℕ) :
    (crosstab y yhat a p).isSome = true ↔ (a ∈ y ∧ p ∈ yhat) := by
  unfold crosstab
  by_cases h : a ∈ y ∧ p ∈ yhat
  · have hb : (y.contains a && yhat.contains p) = true := by
      simp only [Bool.and_eq_true, List.elem_iff]
      exact h
    rw [if_pos hb]
    simpa using h
  · have hb : ¬((y.contains a && yhat.contains p) = true) := by
      simp only [Bool.and_eq_true, List.elem_iff]
      exact h
    rw [if_neg hb]
    simpa using h

theorem crosstab_getD (y yhat : List ℕ) (a p : ℕ) (ha : a ∈ y) (hp : p ∈ yhat) :
    (crosstab y yhat a p).getD 0 = matchCount y yhat a p := by
  unfold crosstab
  have h : (y.contains a && yhat.contains p) = true := by
    simp only [Bool.and_eq_true, List.elem_iff]
    exact ⟨ha, hp⟩
  rw [if_pos h]
  rfl

theorem outcomes_length (preds : List (ℚ × ℚ)) :
    (outcomes preds).length = preds.length :=
  List.length_map _ _

theorem outcomes_binary (preds : List (ℚ × ℚ)) :
    ∀ v ∈ outcomes preds, v = 0 ∨ v = 1 := by
  intro v hv
  obtain ⟨p, _, rfl⟩ := List.mem_map.mp hv
  unfold argmax2
  split_ifs <;> simp

theorem foldOK_spec (f : Fold) (h : foldOK f = true) :
    f.preds.length = f.yTest.length ∧ (∀ v ∈ f.yTest, v = 0 ∨ v = 1) ∧
    0 ∈ f.yTest ∧ 1 ∈ f.yTest ∧
    0 ∈ outcomes f.preds ∧ 1 ∈ outcomes f.preds := by
  unfold foldOK at h
  simp only [Bool.and_eq_true, beq_iff_eq, List.all_eq_true,
    List.elem_iff, Bool.or_eq_true] at h
  obtain ⟨⟨⟨⟨⟨h1, h2⟩, h3⟩, h4⟩, h5⟩, h6⟩ := h
  exact ⟨h1, h2, h3, h4, h5, h6⟩

/-! ## Claims -/

/-- Claim C1: for every oracle fold list of length `N ≥ 1` on which each
iteration's metric computation succeeds (per the spec, library failures
propagate uncaught, so a returned result presupposes success),
`build_model` returns, its metrics list has exactly `N` entries, and each
entry is an `arr` record of exactly 8 populated fields. -/
theorem C1_metrics_list_shape (folds : List Fold)
    (hN : 1 ≤ folds.length) (hOK : folds.all foldOK = true) :
    ∃ r, build_model folds = some r ∧ r.1.length = folds.length ∧
      ∀ m ∈ r.1, m.fields.length = 8 := by
  obtain ⟨last, hlast⟩ : ∃ last, folds.getLast? = some last := by
    have hne : folds ≠ [] := by
      intro hcon
      subst hcon
      simp at hN
    exact Option.isSome_iff_exists.mp (List.getLast?_isSome.mpr hne)
  refine ⟨(folds.map foldRow, last.xTrain, last.yTrain, last.yTest,
      outcomes last.preds), ?_, ?_, ?_⟩
  · unfold build_model
    rw [hlast]
    simp [hOK]
  · simp
  · intro m hm
    obtain ⟨f, _, rfl⟩ := List.mem_map.mp hm
    rfl

theorem C1_witness :
    ∃ r, build_model [demoFold] = some r ∧ r.1.length = [demoFold].length ∧
      ∀ m ∈ r.1, m.fields.length = 8 :=
  C1_metrics_list_shape [demoFold] (by decide) (by decide)

/-- Claim C2: in every successfully computed fold, the correct count plus
the incorrect count read off the actual-vs-predicted cross-tabulation
equals the number of test-set samples of that fold. -/
theorem C2_confusion_total (f : Fold) (h : foldOK f = true) :
    (foldRow f).correct + (foldRow f).incorrect = f.yTest.length := by
  obtain ⟨hlen, hbin, h0, h1, ho0, ho1⟩ := foldOK_spec f h
  show ((crosstab f.yTest (outcomes f.preds) 0 0).getD 0 +
      (crosstab f.yTest (outcomes f.preds) 1 1).getD 0) +
      ((crosstab f.yTest (outcomes f.preds) 1 0).getD 0 +
      (crosstab f.yTest (outcomes f.preds) 0 1).getD 0) = f.yTest.length
  rw [crosstab_getD _ _ 0 0 h0 ho0, crosstab_getD _ _ 1 1 h1 ho1,
    crosstab_getD _ _ 1 0 h1 ho0, crosstab_getD _ _ 0 1 h0 ho1]
  have hpart := countP_partition (f.yTest.zip (outcomes f.preds)) ?side
  case side =>
    intro q hq
    have hmem := List.of_mem_zip hq
    exact ⟨hbin q.1 hmem.1, outcomes_binary f.preds q.2 hmem.2⟩
  have hziplen : (f.yTest.zip (outcomes f.preds)).length = f.yTest.length := by
    rw [List.length_zip, outcomes_length, hlen, min_self]
  unfold matchCount
  omega

theorem C2_witness :
    (foldRow demoFold).correct + (foldRow demoFold).incorrect =
      demoFold.yTest.length :=
  C2_confusion_total demoFold (by decide)

/-- Claim C3: in every successfully computed fold, the recorded precision,
accuracy, recall and ROC values (rounded to 4 decimals, then scaled by
100) lie in `[0, 100]`, and the recorded log-loss is non-negative. -/
theorem C3_metric_ranges (f : Fold) (_h : foldOK f = true) :
    (0 ≤ (foldRow f).precision ∧ (foldRow f).precision ≤ 100) ∧
    (0 ≤ (foldRow f).accuracy ∧ (foldRow f).accuracy ≤ 100) ∧
    (0 ≤ (foldRow f).«recall» ∧ (foldRow f).«recall» ≤ 100) ∧
    (0 ≤ (foldRow f).roc ∧ (foldRow f).roc ≤ 100) ∧
    0 ≤ (foldRow f).logloss := by
  refine ⟨⟨?_, ?_⟩, ⟨?_, ?_⟩, ⟨?_, ?_⟩, ⟨?_, ?_⟩, ?_⟩
  · exact scaled_nonneg (precision_score_bounds _ _).1
  · exact scaled_le_100 (precision_score_bounds _ _).2
  · exact scaled_nonneg (accuracy_score_bounds _ _).1
  · exact scaled_le_100 (accuracy_score_bounds _ _).2
  · exact scaled_nonneg (recall_score_bounds _ _).1
  · exact scaled_le_100 (recall_score_bounds _ _).2
  · exact scaled_nonneg (roc_auc_score_bounds _ _).1
  · exact scaled_le_100 (roc_auc_score_bounds _ _).2
  · exact roundTo_nonneg (log_loss_nonneg _ _)

theorem C3_witness :
    (0 ≤ (foldRow demoFold).precision ∧ (foldRow demoFold).precision ≤ 100) ∧
    (0 ≤ (foldRow demoFold).accuracy ∧ (foldRow demoFold).accuracy ≤ 100) ∧
    (0 ≤ (foldRow demoFold).«recall» ∧ (foldRow demoFold).«recall» ≤ 100) ∧
    (0 ≤ (foldRow demoFold).roc ∧ (foldRow demoFold).roc ≤ 100) ∧
    0 ≤ (foldRow demoFold).logloss :=
  C3_metric_ranges demoFold (by decide)

/-- Claim C4: for a non-empty metrics list, every row of the summary table
has its aggregated mean between that row's min and max. -/
theorem C4_summary_mean_between (ms : List FoldMetrics) (h : ms ≠ []) :
    ∀ r ∈ build_metric_table ms, r.min ≤ r.mean ∧ r.mean ≤ r.max := by
  intro r hr
  unfold build_metric_table at hr
  obtain ⟨c, _, rfl⟩ := List.mem_map.mp hr
  have hxs : ms.map c.2 ≠ [] := by
    intro hcon
    exact h (List.map_eq_nil_iff.mp hcon)
  exact ⟨listMin_le_meanR _ hxs, meanR_le_listMax _ hxs⟩

theorem C4_witness :
    ∃ r ∈ build_metric_table [demoRow], r.min ≤ r.mean ∧ r.mean ≤ r.max := by
  have hne : build_metric_table [demoRow] ≠ [] := by
    unfold build_metric_table metricCols
    simp
  exact ⟨(build_metric_table [demoRow]).head hne, List.head_mem hne,
    C4_summary_mean_between [demoRow] (by simp) _ (List.head_mem hne)⟩

/-- Claim C5: `build_metric_table` is a pure, deterministic function of the
metrics list: two runs on the same fixed list produce identical summary
tables.  In this embedding the function consults no state other than its
argument, so the two runs coincide definitionally. -/
theorem C5_aggregation_deterministic (ms : List FoldMetrics) :
    build_metric_table ms = build_metric_table ms := rfl

theorem outcomes_softFold : outcomes softFold.preds = [0, 1] := by
  simp only [softFold, outcomes, List.map_cons, List.map_nil, argmax2]
  norm_num

theorem roundTo4_of_small {x : ℝ} (h0 : 0 ≤ x) (h1 : x * 10 ^ 4 < 1 / 2) :
    roundTo 4 x = 0 := by
  unfold roundTo
  have hfloor : ⌊x * 10 ^ 4⌋ = 0 := by
    apply Int.floor_eq_zero_iff.mpr
    constructor
    · positivity
    · calc x * 10 ^ 4 < 1 / 2 := h1
      _ < 1 := by norm_num
  have hfract : Int.fract (x * 10 ^ 4) = x * 10 ^ 4 := by
    unfold Int.fract
    rw [hfloor]
    simp
  unfold pyRound
  rw [if_pos (by rw [hfract]; exact h1), hfloor]
  norm_num

theorem log_loss_hard_softFold :
    log_loss softFold.yTest ((outcomes softFold.preds).map (fun v => (v : ℚ))) =
      -Real.log ((1 - EPS : ℚ) : ℝ) := by
  rw [outcomes_softFold]
  show log_loss [0, 1] [((0 : ℕ) : ℚ), ((1 : ℕ) : ℚ)] = _
  unfold log_loss
  have hc0 : clip01 0 = EPS := by
    unfold clip01 EPS
    norm_num
  have hc1 : clip01 1 = 1 - EPS := by
    unfold clip01 EPS
    norm_num
  simp only [List.zip_cons_cons, List.zip_nil_right, List.map_cons,
    List.map_nil, List.sum_cons, List.sum_nil, List.length_cons,
    List.length_nil, Nat.cast_zero, Nat.cast_one, hc0, hc1]
  norm_num

theorem logloss_softFold_eq_zero : (foldRow softFold).logloss = 0 := by
  show roundTo 4
      (log_loss softFold.yTest ((outcomes softFold.preds).map (fun v => (v : ℚ)))) = 0
  rw [log_loss_hard_softFold]
  have hcast : ((1 - EPS : ℚ) : ℝ) = 1 - 1 / 10 ^ 15 := by
    unfold EPS
    push_cast
    ring
  have hc_pos : (0 : ℝ) < ((1 - EPS : ℚ) : ℝ) := by
    rw [hcast]; norm_num
  apply roundTo4_of_small
  · rw [neg_nonneg]
    apply Real.log_nonpos (le_of_lt hc_pos)
    rw [hcast]; norm_num
  · have hinv := Real.log_le_sub_one_of_pos (inv_pos.mpr hc_pos)
    rw [Real.log_inv] at hinv
    have hbound : (((1 - EPS : ℚ) : ℝ))⁻¹ - 1 < 1 / 20000 := by
      rw [hcast]
      have ha : (0 : ℝ) < 1 - 1 / 10 ^ 15 := by norm_num
      have hmul : (1 - 1 / 10 ^ 15 : ℝ) * (1 - 1 / 10 ^ 15 : ℝ)⁻¹ = 1 :=
        mul_inv_cancel₀ (ne_of_gt ha)
      have hgt : (1 : ℝ) < (1 - 1 / 10 ^ 15) * (20001 / 20000) := by norm_num
      have hip : (0 : ℝ) < (1 - 1 / 10 ^ 15 : ℝ)⁻¹ := inv_pos.mpr ha
      nlinarith [hmul, hgt, hip]
    nlinarith [hinv, hbound]

theorem nll_of_probs_softFold_pos :
    0 < nll_of_probs softFold.yTest softFold.preds := by
  show 0 < nll_of_probs [0, 1] [(3 / 5, 2 / 5), (3 / 10, 7 / 10)]
  unfold nll_of_probs
  have h1 : Real.log ((3 : ℝ) / 5) < 0 := Real.log_neg (by norm_num) (by norm_num)
  have h2 : Real.log ((7 : ℝ) / 10) < 0 := Real.log_neg (by norm_num) (by norm_num)
  simp only [List.zip_cons_cons, List.zip_nil_right, List.map_cons,
    List.map_nil, List.sum_cons, List.sum_nil, List.length_cons,
    List.length_nil]
  norm_num
  nlinarith [h1, h2]

/-- Claim C6 fails on the code: at the fold `softFold` every metric step
succeeds, yet the recorded log-loss (computed from the argmax hard labels,
hence `0` after rounding) differs from the negative log-likelihood of the
true labels under the predicted class probabilities. -/
theorem C6_counterexample :
    foldOK softFold = true ∧
    (foldRow softFold).logloss ≠ nll_of_probs softFold.yTest softFold.preds := by
  constructor
  · rw [foldOK]
    rw [outcomes_softFold]
    rfl
  · rw [logloss_softFold_eq_zero]
    exact ne_of_lt nll_of_probs_softFold_pos

/-- Claim C6 amended: the log-loss `build_model` records is
`round(log_loss(y_test, outcomes), 4)`, computed from the argmax *hard
labels* (clipped to `[1e-15, 1 - 1e-15]`), not from the predicted class
probabilities: it is a function of the test labels and predicted labels
alone, so two folds agreeing on those record the same log-loss whatever
their probability outputs were. -/
theorem C6_amended_logloss_from_hard_labels (f g : Fold)
    (hy : f.yTest = g.yTest) (ho : outcomes f.preds = outcomes g.preds) :
    (foldRow f).logloss = (foldRow g).logloss := by
  show roundTo 4 (log_loss f.yTest ((outcomes f.preds).map (fun v => (v : ℚ)))) =
      roundTo 4 (log_loss g.yTest ((outcomes g.preds).map (fun v => (v : ℚ))))
  rw [hy, ho]

theorem C6_witness :
    demoFold.yTest = softFold.yTest ∧
    outcomes demoFold.preds = outcomes softFold.preds ∧
    (foldRow demoFold).logloss = (foldRow softFold).logloss := by
  have h1 : demoFold.yTest = softFold.yTest := rfl
  have h2 : outcomes demoFold.preds = outcomes softFold.preds := by
    rw [outcomes_softFold]
    rfl
  exact ⟨h1, h2, C6_amended_logloss_from_hard_labels demoFold softFold h1 h2⟩

/-- Claim C7 fails on the code: at `demoFold` (training features `[[7]]`,
held-out features `[[5]]`) the value `build_model` returns alongside the
metrics list is the training features, training labels, held-out *labels*
and the predicted labels — the held-out feature partition `[[5]]` is not
among the returned components (the only feature-frame-typed slot carries
the training features `[[7]]`). -/
theorem C7_counterexample :
    build_model [demoFold] =
      some ([foldRow demoFold], [[7]], [0], [0, 1], [0, 1]) ∧
    demoFold.xTest = [[5]] ∧ ([[7]] : List (List ℚ)) ≠ [[5]] := by
  refine ⟨rfl, rfl, ?_⟩
  intro hcon
  have : (7 : ℚ) = 5 := by
    have h1 := List.head_eq_of_cons_eq hcon
    exact List.head_eq_of_cons_eq h1
  norm_num at this

/-- Claim C7 amended: `build_model` returns the per-fold metrics list
together with the loop variables of the *last* iteration: its training
features `x_train`, training labels `y_train`, held-out labels `y_test`
and the predicted labels `outcomes`; the held-out feature partition
`x_test` is not returned. -/
theorem C7_amended_return_value (folds : List Fold) (last : Fold)
    (hlast : folds.getLast? = some last) (hOK : folds.all foldOK = true) :
    build_model folds = some (folds.map foldRow, last.xTrain, last.yTrain,
      last.yTest, outcomes last.preds) := by
  unfold build_model
  rw [hlast]
  simp [hOK]

theorem C7_witness :
    build_model [demoFold] = some ([demoFold].map foldRow, demoFold.xTrain,
      demoFold.yTrain, demoFold.yTest, outcomes demoFold.preds) :=
  C7_amended_return_value [demoFold] demoFold rfl (by decide)

/-- Claim C8: for distinct input feature column names and one library score
per column, the persisted feature-score table has exactly as many rows as
there are feature columns, contains every column name with no duplicates,
and its rows are ordered descending by score. -/
theorem C8_feature_table (cols : List String) (scores : List ℚ)
    (hnodup : cols.Nodup) (hlen : scores.length = cols.length) :
    (feature_scoring cols scores).rows.length = cols.length ∧
    (∀ c ∈ cols, c ∈ (feature_scoring cols scores).rows.map Prod.snd) ∧
    ((feature_scoring cols scores).rows.map Prod.snd).Nodup ∧
    (feature_scoring cols scores).rows.Pairwise (fun a b => b.1 ≤ a.1) := by
  have hperm : ((scores.zip cols).mergeSort
      (fun a b => decide (b.1 ≤ a.1))).Perm (scores.zip cols) :=
    List.mergeSort_perm _ _
  have hsnd : (scores.zip cols).map Prod.snd = cols :=
    List.map_snd_zip _ _ (le_of_eq hlen.symm)
  have hpermsnd : ((feature_scoring cols scores).rows.map Prod.snd).Perm cols := by
    have h := hperm.map Prod.snd
    rwa [hsnd] at h
  refine ⟨?_, ?_, ?_, ?_⟩
  · show ((scores.zip cols).mergeSort (fun a b => decide (b.1 ≤ a.1))).length = _
    rw [hperm.length_eq, List.length_zip, hlen, min_self]
  · intro c hc
    exact hpermsnd.mem_iff.mpr hc
  · exact hpermsnd.nodup_iff.mpr hnodup
  · have hs := @List.sorted_mergeSort (ℚ × String)
      (fun a b => decide (b.1 ≤ a.1))
      (fun a b c hab hbc => by
        simp only [decide_eq_true_eq] at hab hbc ⊢
        exact le_trans hbc hab)
      (fun a b => by
        simp only [Bool.or_eq_true, decide_eq_true_eq]
        exact le_total b.1 a.1)
      (scores.zip cols)
    exact hs.imp (fun h => by simpa using h)

theorem C8_witness :
    (feature_scoring ["A_Massey", "H_Massey"] [1, 2]).rows.length =
      (["A_Massey", "H_Massey"] : List String).length ∧
    (∀ c ∈ (["A_Massey", "H_Massey"] : List String),
      c ∈ (feature_scoring ["A_Massey", "H_Massey"] [1, 2]).rows.map Prod.snd) ∧
    ((feature_scoring ["A_Massey", "H_Massey"] [1, 2]).rows.map Prod.snd).Nodup ∧
    (feature_scoring ["A_Massey", "H_Massey"] [1, 2]).rows.Pairwise
      (fun a b => b.1 ≤ a.1) :=
  C8_feature_table ["A_Massey", "H_Massey"] [1, 2] (by decide) (by decide)

/-- Claim C9: in the table `feature_scoring` builds and persists, the column
labels are swapped relative to their contents: the labels are exactly
`["Specs", "Score"]`, the first-labelled column (`Specs`) carries the
numeric F-statistic scores and the second-labelled column (`Score`)
carries the feature names. -/
theorem C9_swapped_column_labels (cols : List String) (scores : List ℚ)
    (hlen : scores.length = cols.length) :
    (feature_scoring cols scores).colLabels = ["Specs", "Score"] ∧
    ((feature_scoring cols scores).rows.map Prod.fst).Perm scores ∧
    ((feature_scoring cols scores).rows.map Prod.snd).Perm cols := by
  have hperm : ((scores.zip cols).mergeSort
      (fun a b => decide (b.1 ≤ a.1))).Perm (scores.zip cols) :=
    List.mergeSort_perm _ _
  refine ⟨rfl, ?_, ?_⟩
  · have hfst : (scores.zip cols).map Prod.fst = scores :=
      List.map_fst_zip _ _ (le_of_eq hlen)
    have h := hperm.map Prod.fst
    rwa [hfst] at h
  · have hsnd : (scores.zip cols).map Prod.snd = cols :=
      List.map_snd_zip _ _ (le_of_eq hlen.symm)
    have h := hperm.map Prod.snd
    rwa [hsnd] at h

theorem C9_witness :
    (feature_scoring ["H_NET_RATING", "A_NET_RATING"] [2, 1]).colLabels =
      ["Specs", "Score"] ∧
    ((feature_scoring ["H_NET_RATING", "A_NET_RATING"] [2, 1]).rows.map
      Prod.fst).Perm [2, 1] ∧
    ((feature_scoring ["H_NET_RATING", "A_NET_RATING"] [2, 1]).rows.map
      Prod.snd).Perm ["H_NET_RATING", "A_NET_RATING"] :=
  C9_swapped_column_labels ["H_NET_RATING", "A_NET_RATING"] [2, 1] (by decide)

/-- Claim C10: the four crosstab lookups `crosstab[0][0]`, `crosstab[1][1]`,
`crosstab[0][1]`, `crosstab[1][0]` that `build_model` performs are all
defined exactly when both classes occur among the actual labels and both
occur among the predicted labels; if either class is absent from either
side, at least one lookup is the modelled uncaught `KeyError`, and under
the both-present precondition the error branch is unreachable. -/
theorem C10_crosstab_defined_iff (y yhat : List ℕ) :
    ((crosstab y yhat 0 0).isSome = true ∧ (crosstab y yhat 1 1).isSome = true ∧
     (crosstab y yhat 1 0).isSome = true ∧ (crosstab y yhat 0 1).isSome = true) ↔
    ((0 ∈ y ∧ 1 ∈ y) ∧ (0 ∈ yhat ∧ 1 ∈ yhat)) := by
  simp only [crosstab_isSome_iff]
  tauto

end PredApp
